import Mathlib

/-!
# Verification of the DEX arbitrage pool-data engine

A shallow embedding, in Lean, of the cycle-enumeration and batched-persistence
core of the repository (src/services/batch-processor.ts: `BatchProcessor` and
`ArbitrageFinderService`, together with the legacy standalone script and the
`SwapUtils` helpers).  Token and pool addresses are modelled as `String`
(JavaScript strings); the `Map`s used by the source are modelled as
association views (a function from key to stored value); the SQLite store is
modelled as an explicit record of inserted rows, with a transaction's
BEGIN/COMMIT/ROLLBACK semantics rendered as "publish all writes on commit,
restore the pre-transaction state on any error".  Failure of an individual
store operation is injected by an explicit `failAt` oracle naming which
awaited operation (in program order) throws.
-/

namespace DexArb

/-- A pool row as loaded from `tbl_dex_pool` (the fields the core reads). -/
structure PoolInfo where
  pool_address : String
  token0 : String
  token1 : String
deriving DecidableEq, Repr

/-- A token row as loaded from `tbl_dex_token` (the fields the core reads). -/
structure TokenInfo where
  address : String
  symbol : String
deriving DecidableEq, Repr

/-- One directed adjacency edge: traverse `pool` and arrive at `toToken`. -/
structure PoolEdge where
  pool : String
  toToken : String
deriving DecidableEq, Repr

/-- A discovered arbitrage path as buffered by the batch processor. -/
structure ArbitragePath where
  tokens : List String
  pools : List String
  length : Nat
  swapPath : String
deriving DecidableEq, Repr

/-- A step row as inserted into `tbl_dex_arbitrage_step`. -/
structure ArbitrageStep where
  pathId : Nat
  stepIndex : Nat
  poolAddress : String
  fromToken : String
  toToken : String
  isForward : Bool
deriving DecidableEq, Repr

/-- `ARBITRAGE_CONFIG.MAX_DEPTH` from src/config/constants.ts. -/
def MAX_DEPTH : Nat := 3

/-- `ARBITRAGE_CONFIG.MIN_DEPTH` from src/config/constants.ts. -/
def MIN_DEPTH : Nat := 3

/-- `ARBITRAGE_CONFIG.WETH_ADDRESS` from src/config/constants.ts (stored
already lower-cased by the source). -/
def WETH_ADDRESS : String := "0xc02aaa39b223fe8d0a0e5c4f27ead9083c756cc2"

/-- `BATCH_CONFIG.PATHS_BATCH_SIZE` from src/config/constants.ts. -/
def PATHS_BATCH_SIZE : Nat := 1000

/-! ## Graph Builder (`ArbitrageFinderService.buildAdjacencyMap`)

The source iterates the pool cache in insertion order and, for every pool,
pushes the edge `token0 → token1` and then the edge `token1 → token0`.  The
resulting `Map` is modelled by its lookup view: `adjEdges pools t` is exactly
the array stored under key `t` (and `[]` when the key was never inserted,
which the DFS treats identically to an absent key). -/

/-- The edge list stored under key `t` in the adjacency `Map` built by
`buildAdjacencyMap` from the pool collection `pools` (in insertion order). -/
def adjEdges (pools : List PoolInfo) (t : String) : List PoolEdge :=
  pools.flatMap (fun p =>
    (if p.token0 = t then [⟨p.pool_address, p.token1⟩] else []) ++
    (if p.token1 = t then [⟨p.pool_address, p.token0⟩] else []))

/-- The keys of the adjacency `Map`, in first-insertion order. -/
def adjKeys (pools : List PoolInfo) : List String :=
  (pools.flatMap (fun p => [p.token0, p.token1])).dedup

/-- Total number of directed edges stored in the adjacency `Map`: the sum of
the edge-list lengths over all (distinct) keys. -/
def totalAdjEdges (pools : List PoolInfo) : Nat :=
  ((adjKeys pools).map (fun t => (adjEdges pools t).length)).sum

/-! ## Cycle Enumerator (`ArbitrageFinderService.dfs`)

The recursive search of batch-processor.ts lines 352-380, written with an
explicit `fuel` argument to make the recursion structural.  Every level of
the source's recursion grows `pathTokens` by one and returns immediately once
`pathTokens.length > MAX_DEPTH`, so any fuel of at least `maxDepth + 2 -
pathTokens.length` is never exhausted before that guard fires; the entry
point below supplies `maxDepth + 2`.  The `visitedPools` set is modelled as a
list queried by membership; emission (`processArbitragePath` / `addPath`) is
modelled by returning the emitted `(tokens, pools)` pairs in DFS pre-order. -/

/-- `ArbitrageFinderService.dfs`: returns the list of emitted
`(pathTokens, pathPools)` pairs, in emission order. -/
def dfs (adj : String → List PoolEdge) (maxDepth minDepth : Nat) (start : String) :
    Nat → String → List String → List String → List String →
    List (List String × List String)
  | 0, _, _, _, _ => []
  | fuel + 1, current, visitedPools, pathTokens, pathPools =>
    if pathTokens.length > maxDepth then []
    else
      (adj current).flatMap (fun e =>
        if e.pool ∈ visitedPools then []
        else
          -- newPathTokens := pathTokens ++ [e.toToken],
          -- newPathPools := pathPools ++ [e.pool]
          if e.toToken = start ∧ minDepth + 1 ≤ (pathTokens ++ [e.toToken]).length then
            [(pathTokens ++ [e.toToken], pathPools ++ [e.pool])]
          else
            dfs adj maxDepth minDepth start fuel e.toToken
              (e.pool :: visitedPools) (pathTokens ++ [e.toToken]) (pathPools ++ [e.pool]))

/-- The enumeration actually run by `findArbitragePaths`: a DFS from the
anchor over the adjacency map built from `pools`, seeded exactly as in the
source (`dfs(weth, weth, new Set(), [weth], [])`). -/
def findPathsRun (pools : List PoolInfo) (maxDepth minDepth : Nat)
    (anchor : String) : List (List String × List String) :=
  dfs (adjEdges pools) maxDepth minDepth anchor (maxDepth + 2) anchor [] [anchor] []

/-! ## Caches and path finalization -/

/-- The token symbol cache (`tokenCache`): address → symbol.  The schema
declares `address` UNIQUE, so first-match lookup coincides with the `Map`. -/
def tokenCacheOf (tokens : List TokenInfo) (addr : String) : Option String :=
  (tokens.find? (fun t => t.address == addr)).map (fun t => t.symbol)

/-- The pool cache (`poolCache`): pool address → pool record. -/
def poolCacheOf (pools : List PoolInfo) (pa : String) : Option PoolInfo :=
  pools.find? (fun p => p.pool_address == pa)

/-- The swap-path string built by `processArbitragePath`: cached symbols
joined by "-", falling back to the raw address when no symbol is cached. -/
def buildSwapPath (tokenCache : String → Option String) (tokens : List String) : String :=
  String.intercalate "-" (tokens.map (fun addr => (tokenCache addr).getD addr))

/-- `ArbitrageFinderService.processArbitragePath`: finalize an emitted
`(tokens, pools)` pair into the buffered `ArbitragePath` record. -/
def processArbitragePath (tokenCache : String → Option String)
    (pathTokens pathPools : List String) : ArbitragePath :=
  ⟨pathTokens, pathPools, pathTokens.length - 1, buildSwapPath tokenCache pathTokens⟩

/-! ## Step generation -/

/-- `SwapUtils.isForwardSwap` (also the legacy script's `isForwardSwap`):
a traversal is forward exactly when the from-token is the pool's `token0`. -/
def isForwardSwap (fromToken : String) (pool : PoolInfo) : Bool :=
  fromToken == pool.token0

/-- `BatchProcessor.generateStepsForPath` (src/services/batch-processor.ts
lines 153-176): one step per edge, with `isForward` HARDCODED to `true`
("simplified - could be enhanced" in the source).  The source indexes the
arrays directly; on the well-formed paths it receives every index is in
bounds, which the `Option` match mirrors. -/
def generateStepsForPath (path : ArbitragePath) (pathId : Nat) : List ArbitrageStep :=
  (List.range (path.tokens.length - 1)).filterMap (fun i =>
    match path.tokens[i]?, path.tokens[i + 1]?, path.pools[i]? with
    | some fromToken, some toToken, some poolAddress =>
      some ⟨pathId, i, poolAddress, fromToken, toToken, true⟩
    | _, _, _ => none)

/-- One iteration of the legacy `flushBatches` step loop (part of the
standalone script): look the pool up in the cache, skip the step (`continue`)
when absent, otherwise derive the direction flag with `isForwardSwap`. -/
def stepRowAt (poolCache : String → Option PoolInfo) (pathId : Nat)
    (tokens pools : List String) (i : Nat) : Option ArbitrageStep :=
  match tokens[i]?, tokens[i + 1]?, pools[i]? with
  | some fromToken, some toToken, some poolAddress =>
    match poolCache poolAddress with
    | some pool =>
      some ⟨pathId, i, poolAddress, fromToken, toToken, isForwardSwap fromToken pool⟩
    | none => none
  | _, _, _ => none

/-- The legacy `flushBatches` step generation for one path: steps for indices
`0 .. length-1`, skipping any step whose pool is absent from the cache. -/
def flushStepsForPath (poolCache : String → Option PoolInfo) (pathId : Nat)
    (tokens pools : List String) : List ArbitrageStep :=
  (List.range (tokens.length - 1)).filterMap (stepRowAt poolCache pathId tokens pools)

/-- Reading step rows back in `stepIndex` order and concatenating the
`fromToken → toToken` chain: the first row's from-token followed by every
row's to-token. -/
def chainTokens : List ArbitrageStep → List String
  | [] => []
  | s :: rest => s.fromToken :: (s :: rest).map (fun st => st.toToken)

/-! ## Batched Persister (`BatchProcessor`) and the store

The SQLite store is a record of inserted rows plus the `AUTOINCREMENT`
counter for path ids.  A flush transaction is the op sequence of
src/services/batch-processor.ts `flushBatches`: one path-insert per buffered
path (each returning `lastID`), then one step-insert per collected step row,
then `COMMIT`.  The oracle `failAt` names the zero-based op (in that order)
that throws, `none` meaning no store operation fails.  BEGIN/COMMIT/ROLLBACK
semantics: on success all writes become visible; on any error the `ROLLBACK`
of the catch block restores the pre-transaction store and the error is
rethrown. -/

/-- Errors surfaced by a discovery run (spec §7 taxonomy). -/
inductive RunError where
  | NotFound
  | Disconnected
  | StorageFailure
deriving DecidableEq, Repr

/-- One row of `tbl_dex_arbitrage_path`. -/
structure PathRow where
  id : Nat
  length : Nat
  swap_path : String
deriving DecidableEq, Repr

/-- The durable store: visible rows and the next `AUTOINCREMENT` path id. -/
structure DBState where
  nextPathId : Nat
  pathRows : List PathRow
  stepRows : List ArbitrageStep
deriving DecidableEq, Repr

/-- `INSERT INTO tbl_dex_arbitrage_path ...` returning `lastID`. -/
def insertPathRow (db : DBState) (p : ArbitragePath) : DBState × Nat :=
  (⟨db.nextPathId + 1, db.pathRows ++ [⟨db.nextPathId, p.length, p.swapPath⟩],
    db.stepRows⟩, db.nextPathId)

/-- The path-insert loop of `flushBatches`: insert each path (op indices
`opIdx, opIdx+1, ...`), generate its step rows from the real id via the pool
cache, and collect them in order.  Returns the store, the collected step
rows, and the next op index. -/
def insertPaths (failAt : Option Nat) (poolCache : String → Option PoolInfo) :
    Nat → DBState → List ArbitragePath →
    Except RunError (DBState × List ArbitrageStep × Nat)
  | opIdx, db, [] => .ok (db, [], opIdx)
  | opIdx, db, p :: rest =>
    if failAt = some opIdx then .error .StorageFailure
    else
      match insertPaths failAt poolCache (opIdx + 1) (insertPathRow db p).1 rest with
      | .ok (db2, steps2, opEnd) =>
        .ok (db2, flushStepsForPath poolCache (insertPathRow db p).2 p.tokens p.pools ++ steps2,
          opEnd)
      | .error e => .error e

/-- The step-insert loop of `insertStepsBatch`: one store op per step row. -/
def insertSteps (failAt : Option Nat) :
    Nat → DBState → List ArbitrageStep → Except RunError (DBState × Nat)
  | opIdx, db, [] => .ok (db, opIdx)
  | opIdx, db, s :: rest =>
    if failAt = some opIdx then .error .StorageFailure
    else insertSteps failAt (opIdx + 1) ⟨db.nextPathId, db.pathRows, db.stepRows ++ [s]⟩ rest

/-- The whole flush transaction: path inserts, step inserts, `COMMIT` (the
final op).  Any failing op aborts with `StorageFailure`. -/
def runTxn (failAt : Option Nat) (poolCache : String → Option PoolInfo)
    (db : DBState) (batch : List ArbitragePath) : Except RunError DBState :=
  match insertPaths failAt poolCache 0 db batch with
  | .error e => .error e
  | .ok (db1, steps, o1) =>
    match insertSteps failAt o1 db1 steps with
    | .error e => .error e
    | .ok (db2, o2) => if failAt = some o2 then .error .StorageFailure else .ok db2

/-- Number of step rows the transaction will insert for `batch` (the length
of a path's step list does not depend on the id it is assigned). -/
def txnStepCount (poolCache : String → Option PoolInfo)
    (batch : List ArbitragePath) : Nat :=
  (batch.map (fun p => (flushStepsForPath poolCache 0 p.tokens p.pools).length)).sum

/-- Total number of awaited store operations inside the transaction:
one per path, one per step row, plus the `COMMIT`. -/
def txnOpCount (poolCache : String → Option PoolInfo)
    (batch : List ArbitragePath) : Nat :=
  batch.length + txnStepCount poolCache batch + 1

/-- The `BatchProcessor`'s mutable state: the in-memory path buffer, the
in-flight-flush guard, and the store handle's visible contents. -/
structure BPState where
  pathBatch : List ArbitragePath
  isFlushingBatch : Bool
  db : DBState
deriving DecidableEq, Repr

/-- `BatchProcessor.flushBatches` (src/services/batch-processor.ts lines
86-148).  Branches in source order: the guard skip, the empty-and-unforced
return, the `pathCount === 0` return, then the transaction; on success the
buffer is cleared, on error the store is rolled back, the buffer kept and
the error rethrown; the `finally` always leaves the guard released. -/
def flushBatches (failAt : Option Nat) (poolCache : String → Option PoolInfo)
    (st : BPState) (forceFlush : Bool) : BPState × Except RunError Unit :=
  if st.isFlushingBatch then (st, .ok ())
  else if st.pathBatch.isEmpty ∧ ¬forceFlush then (st, .ok ())
  else if st.pathBatch.length = 0 then ({ st with isFlushingBatch := false }, .ok ())
  else
    match runTxn failAt poolCache st.db st.pathBatch with
    | .ok db2 => (⟨[], false, db2⟩, .ok ())
    | .error e => ({ st with isFlushingBatch := false }, .error e)

/-- `BatchProcessor.addPath`: append to the buffer, then flush when the size
threshold is reached and no flush is in progress (failure-free store). -/
def addPath (poolCache : String → Option PoolInfo) (path : ArbitragePath)
    (st : BPState) : BPState :=
  let st1 := { st with pathBatch := st.pathBatch ++ [path] }
  if ¬st1.isFlushingBatch ∧ PATHS_BATCH_SIZE ≤ st1.pathBatch.length then
    (flushBatches none poolCache st1 false).1
  else st1

/-- `BatchProcessor.finalize`: cancel the periodic timer (a no-op in this
sequential model) and force-flush any remaining buffered paths. -/
def finalizeBP (poolCache : String → Option PoolInfo) (st : BPState) : BPState :=
  if st.pathBatch.length > 0 then (flushBatches none poolCache st true).1 else st

/-! ## Anchor Resolver and Orchestrator -/

/-- JavaScript `String.prototype.toLowerCase`, modelled character-wise (the
ASCII case mapping, which covers hex addresses and the symbols at issue). -/
def toLowerCase (s : String) : String := ⟨s.data.map Char.toLower⟩

/-- `ArbitrageFinderService.findWethToken`: first token whose lower-cased
address equals the configured (already lower-cased) anchor address; else
first token with a truthy (non-empty) symbol lower-casing to "weth"; else
`none` (the source throws the "WETH token not found" error). -/
def findWethToken (tokens : List TokenInfo) : Option TokenInfo :=
  match tokens.find? (fun t => toLowerCase t.address == WETH_ADDRESS) with
  | some t => some t
  | none => tokens.find? (fun t => !(t.symbol == "") && toLowerCase t.symbol == "weth")

/-- `ArbitrageFinderService.findArbitragePaths` (the `runDiscovery`
operation), sequentially composed exactly in source order: build caches and
adjacency, resolve the anchor (`NotFound` on failure), validate connectivity
(`Disconnected` when the anchor's edge list is missing or empty), initialize
the batch processor, enumerate, buffer each finalized path, finalize.
Returns the path count (or the first fatal error) and the visible store. -/
def runDiscovery (pools : List PoolInfo) (tokens : List TokenInfo)
    (db : DBState) : Except RunError Nat × DBState :=
  match findWethToken tokens with
  | none => (.error .NotFound, db)
  | some weth =>
    if (adjEdges pools weth.address).length = 0 then (.error .Disconnected, db)
    else
      let st0 : BPState := ⟨[], false, db⟩
      let emitted := findPathsRun pools MAX_DEPTH MIN_DEPTH weth.address
      let finalized := emitted.map (fun tp =>
        processArbitragePath (tokenCacheOf tokens) tp.1 tp.2)
      let st1 := finalized.foldl (fun st p => addPath (poolCacheOf pools) p st) st0
      let st2 := finalizeBP (poolCacheOf pools) st1
      (.ok finalized.length, st2.db)

/-! ## Concrete fixtures used by the witnesses -/

/-- Scenario A triangle: `W–A` via pool `P`, `A–B` via pool `Q`, `B–W` via
pool `R`. -/
def triPools : List PoolInfo := [⟨"P", "W", "A"⟩, ⟨"Q", "A", "B"⟩, ⟨"R", "B", "W"⟩]

/-- An anchor self-loop pool `S` (`token0 = token1 = W`) next to a two-pool
`W–A–W` connection. -/
def anchorLoopPools : List PoolInfo := [⟨"S", "W", "W"⟩, ⟨"P", "W", "A"⟩, ⟨"Q", "A", "W"⟩]

/-- Scenario C token set: the anchor address is absent but a mixed-case
"WeTH" symbol is present. -/
def fallbackTokens : List TokenInfo := [⟨"0xabc", "WeTH"⟩]

/-- A token set holding only the anchor token at its configured address. -/
def wethOnlyTokens : List TokenInfo := [⟨WETH_ADDRESS, "WETH"⟩]

/-- An empty store whose `AUTOINCREMENT` counter starts at 1. -/
def dbEmpty : DBState := ⟨1, [], []⟩

/-- A persister state holding one buffered path over pool `P`, not flushing. -/
def oneBufferedState : BPState := ⟨[⟨["W", "A"], ["P"], 1, "W-A"⟩], false, dbEmpty⟩

/-! # Theorems -/

/-- Invariant of `dfs`: whenever the in-flight state is well-formed (one more
token than pools, head token is the anchor, no pool reused, every used pool
recorded as visited), every emitted `(tokens, pools)` pair has one more token
than pools, starts and ends at the anchor, repeats no pool, and its token
count lies in `[minDepth + 1, maxDepth + 1]`. -/
theorem dfs_emitted_inv (adj : String → List PoolEdge) (maxDepth minDepth : Nat)
    (start : String) :
    ∀ (fuel : Nat) (current : String) (visitedPools pathTokens pathPools : List String),
      pathTokens.length = pathPools.length + 1 →
      pathTokens.head? = some start →
      pathPools.Nodup →
      (∀ p ∈ pathPools, p ∈ visitedPools) →
      ∀ ts ps,
        (ts, ps) ∈ dfs adj maxDepth minDepth start fuel current visitedPools pathTokens pathPools →
        ts.length = ps.length + 1 ∧ ts.head? = some start ∧ ts.getLast? = some start ∧
          ps.Nodup ∧ minDepth + 1 ≤ ts.length ∧ ts.length ≤ maxDepth + 1 := by
  intro fuel
  induction fuel with
  | zero =>
    intro current visited pt pp _ _ _ _ ts ps hmem
    simp [dfs] at hmem
  | succ fuel ih =>
    intro current visited pt pp h1 h2 h3 h4 ts ps hmem
    rw [dfs] at hmem
    by_cases hguard : pt.length > maxDepth
    · rw [if_pos hguard] at hmem
      simp at hmem
    · rw [if_neg hguard] at hmem
      rw [List.mem_flatMap] at hmem
      obtain ⟨e, _, hbody⟩ := hmem
      by_cases hv : e.pool ∈ visited
      · rw [if_pos hv] at hbody
        simp at hbody
      · rw [if_neg hv] at hbody
        have hnotpp : e.pool ∉ pp := fun hmem2 => hv (h4 _ hmem2)
        by_cases hclose : e.toToken = start ∧ minDepth + 1 ≤ (pt ++ [e.toToken]).length
        · rw [if_pos hclose] at hbody
          simp only [List.mem_singleton, Prod.mk.injEq] at hbody
          obtain ⟨hts, hps⟩ := hbody
          subst hts hps
          refine ⟨by simp [h1], ?_, ?_, ?_, hclose.2, ?_⟩
          · rw [List.head?_append, h2]; rfl
          · rw [List.getLast?_concat, hclose.1]
          · simp [List.nodup_append, h3, hnotpp]
          · simp only [List.length_append, List.length_cons, List.length_nil]
            omega
        · rw [if_neg hclose] at hbody
          refine ih e.toToken (e.pool :: visited) (pt ++ [e.toToken]) (pp ++ [e.pool])
            ?_ ?_ ?_ ?_ ts ps hbody
          · simp [h1]
          · rw [List.head?_append, h2]; rfl
          · simp [List.nodup_append, h3, hnotpp]
          · intro p hp
            rcases List.mem_append.mp hp with h | h
            · exact List.mem_cons_of_mem _ (h4 _ h)
            · simp only [List.mem_singleton] at h
              subst h
              exact List.mem_cons_self _ _

/-- C3: every emitted candidate path's token sequence has length equal to the
pool-sequence length plus one, starts and ends with the anchor address, and
its pool sequence contains no duplicate pool address. -/
theorem emitted_path_shape (pools : List PoolInfo) (maxDepth minDepth : Nat)
    (anchor : String) (ts ps : List String)
    (h : (ts, ps) ∈ findPathsRun pools maxDepth minDepth anchor) :
    ts.length = ps.length + 1 ∧ ts.head? = some anchor ∧
      ts.getLast? = some anchor ∧ ps.Nodup := by
  simp only [findPathsRun] at h
  have hinv := dfs_emitted_inv (adjEdges pools) maxDepth minDepth anchor (maxDepth + 2)
    anchor [] [anchor] [] (by simp) (by simp) (by simp) (by simp) ts ps h
  exact ⟨hinv.1, hinv.2.1, hinv.2.2.1, hinv.2.2.2.1⟩

/-- Witness for C3 at the Scenario A triangle. -/
theorem emitted_path_shape_witness :
    (["W", "A", "B", "W"], ["P", "Q", "R"]) ∈ findPathsRun triPools 3 3 "W" ∧
      ((["W", "A", "B", "W"] : List String).length = (["P", "Q", "R"] : List String).length + 1 ∧
        (["W", "A", "B", "W"] : List String).head? = some "W" ∧
        (["W", "A", "B", "W"] : List String).getLast? = some "W" ∧
        (["P", "Q", "R"] : List String).Nodup) :=
  ⟨by decide, emitted_path_shape triPools 3 3 "W" ["W", "A", "B", "W"] ["P", "Q", "R"] (by decide)⟩

/-- C4: every emitted path's step count (tokens minus one) lies between
`minDepth` and `maxDepth` inclusive; in particular no path with more than
`maxDepth` edges is ever emitted. -/
theorem emitted_path_depth_bounds (pools : List PoolInfo) (maxDepth minDepth : Nat)
    (anchor : String) (ts ps : List String)
    (h : (ts, ps) ∈ findPathsRun pools maxDepth minDepth anchor) :
    minDepth ≤ ts.length - 1 ∧ ts.length - 1 ≤ maxDepth := by
  simp only [findPathsRun] at h
  have hinv := dfs_emitted_inv (adjEdges pools) maxDepth minDepth anchor (maxDepth + 2)
    anchor [] [anchor] [] (by simp) (by simp) (by simp) (by simp) ts ps h
  obtain ⟨-, -, -, -, h5, h6⟩ := hinv
  omega

/-- Witness for C4 at the Scenario A triangle (`minDepth = maxDepth = 3`). -/
theorem emitted_path_depth_bounds_witness :
    (["W", "B", "A", "W"], ["R", "Q", "P"]) ∈ findPathsRun triPools 3 3 "W" ∧
      (3 ≤ (["W", "B", "A", "W"] : List String).length - 1 ∧
        (["W", "B", "A", "W"] : List String).length - 1 ≤ 3) :=
  ⟨by decide, emitted_path_depth_bounds triPools 3 3 "W" ["W", "B", "A", "W"] ["R", "Q", "P"] (by decide)⟩

/-- C5: because the closure test recurses into the anchor again when a cycle
closes below `minDepth`, a graph with an anchor self-loop pool emits a path
whose token sequence carries the anchor at an interior position (index 1 of
a four-token sequence). -/
theorem anchor_interior_token_emitted :
    (["W", "W", "A", "W"], ["S", "P", "Q"]) ∈ findPathsRun anchorLoopPools 3 3 "W" ∧
      (["W", "W", "A", "W"] : List String)[1]? = some "W" ∧
      0 < 1 ∧ 1 < (["W", "W", "A", "W"] : List String).length - 1 := by decide

/-- An indicator summed over a list avoiding `b` vanishes. -/
theorem sum_indicator_of_not_mem (b : String) :
    ∀ K : List String, b ∉ K →
      (K.map (fun t => if b = t then (1 : Nat) else 0)).sum = 0 := by
  intro K
  induction K with
  | nil => intro _; simp
  | cons t K ih =>
    intro hb
    have hbt : b ≠ t := fun h => hb (h ▸ List.mem_cons_self _ _)
    have hbK : b ∉ K := fun h => hb (List.mem_cons_of_mem _ h)
    simp [hbt, ih hbK]

/-- An indicator summed over a duplicate-free list containing `b` is one. -/
theorem sum_indicator_of_mem (b : String) :
    ∀ K : List String, K.Nodup → b ∈ K →
      (K.map (fun t => if b = t then (1 : Nat) else 0)).sum = 1 := by
  intro K
  induction K with
  | nil => intro _ h; simp at h
  | cons t K ih =>
    intro hnd hb
    rcases List.nodup_cons.mp hnd with ⟨htK, hndK⟩
    by_cases hbt : b = t
    · subst hbt
      simp [sum_indicator_of_not_mem b K htK]
    · rcases List.mem_cons.mp hb with h | h
      · exact absurd h hbt
      · simp [hbt, ih hndK h]

/-- Prepending one pool adds its two directed edges to the stored lists. -/
theorem adjEdges_cons_length (p : PoolInfo) (ps : List PoolInfo) (t : String) :
    (adjEdges (p :: ps) t).length =
      ((if p.token0 = t then 1 else 0) + (if p.token1 = t then 1 else 0)) +
        (adjEdges ps t).length := by
  simp only [adjEdges, List.flatMap_cons, List.length_append]
  by_cases h0 : p.token0 = t <;> by_cases h1 : p.token1 = t <;> simp [h0, h1]

/-- Generalized edge count: over any duplicate-free key list covering both
tokens of every pool, the stored edge-list lengths sum to `2 × pools`. -/
theorem adjEdges_length_sum (pools : List PoolInfo) :
    ∀ K : List String, K.Nodup → (∀ p ∈ pools, p.token0 ∈ K ∧ p.token1 ∈ K) →
      (K.map (fun t => (adjEdges pools t).length)).sum = 2 * pools.length := by
  induction pools with
  | nil =>
    intro K _ _
    simp [adjEdges]
  | cons p ps ih =>
    intro K hnd hcov
    simp only [adjEdges_cons_length, List.sum_map_add]
    have h0 := (hcov p (List.mem_cons_self _ _)).1
    have h1 := (hcov p (List.mem_cons_self _ _)).2
    rw [sum_indicator_of_mem p.token0 K hnd h0, sum_indicator_of_mem p.token1 K hnd h1,
      ih K hnd (fun q hq => hcov q (List.mem_cons_of_mem _ hq))]
    simp only [List.length_cons]
    ring

/-- Membership in a stored edge list, characterized by the originating pool. -/
theorem mem_adjEdges (pools : List PoolInfo) (t : String) (e : PoolEdge) :
    e ∈ adjEdges pools t ↔
      ∃ p ∈ pools, (p.token0 = t ∧ e = ⟨p.pool_address, p.token1⟩) ∨
        (p.token1 = t ∧ e = ⟨p.pool_address, p.token0⟩) := by
  simp [adjEdges, List.mem_flatMap, List.mem_append, List.mem_ite_nil_right]

/-- C8: the adjacency mapping holds exactly `2 × (number of pools)` directed
edges in total, and edges are symmetric: whenever `a → e.toToken` via a pool
is stored, the reverse edge via the same pool is stored under `e.toToken`. -/
theorem adjacency_edge_count_and_symmetry (pools : List PoolInfo) :
    totalAdjEdges pools = 2 * pools.length ∧
      ∀ (a : String) (e : PoolEdge), e ∈ adjEdges pools a →
        ∃ e2 : PoolEdge, e2 ∈ adjEdges pools e.toToken ∧
          e2.pool = e.pool ∧ e2.toToken = a := by
  constructor
  · refine adjEdges_length_sum pools (adjKeys pools) (List.nodup_dedup _) ?_
    intro p hp
    constructor
    · rw [adjKeys, List.mem_dedup, List.mem_flatMap]
      exact ⟨p, hp, by simp⟩
    · rw [adjKeys, List.mem_dedup, List.mem_flatMap]
      exact ⟨p, hp, by simp⟩
  · intro a e he
    rcases (mem_adjEdges pools a e).mp he with ⟨p, hp, hcase⟩
    rcases hcase with ⟨h0, rfl⟩ | ⟨h1, rfl⟩
    · exact ⟨⟨p.pool_address, p.token0⟩,
        (mem_adjEdges pools p.token1 _).mpr ⟨p, hp, Or.inr ⟨rfl, rfl⟩⟩, rfl, h0⟩
    · exact ⟨⟨p.pool_address, p.token1⟩,
        (mem_adjEdges pools p.token0 _).mpr ⟨p, hp, Or.inl ⟨rfl, rfl⟩⟩, rfl, h1⟩

/-- Witness for C8 at the Scenario A triangle. -/
theorem adjacency_edge_count_and_symmetry_witness :
    totalAdjEdges triPools = 2 * triPools.length ∧
      ∃ e2 : PoolEdge, e2 ∈ adjEdges triPools "A" ∧ e2.pool = "P" ∧ e2.toToken = "W" :=
  ⟨(adjacency_edge_count_and_symmetry triPools).1,
   (adjacency_edge_count_and_symmetry triPools).2 "W" ⟨"P", "A"⟩ (by decide)⟩

/-- A `filterMap` over `range` that hits on every index is a `map`. -/
theorem filterMap_range_eq_map {β : Type} (n : Nat) (f : Nat → Option β) (g : Nat → β)
    (h : ∀ i, i < n → f i = some (g i)) :
    (List.range n).filterMap f = (List.range n).map g := by
  induction n with
  | zero => simp
  | succ n ih =>
    rw [List.range_succ, List.filterMap_append, List.map_append,
      ih (fun i hi => h i (Nat.lt_succ_of_lt hi))]
    simp [h n (Nat.lt_succ_self n)]

/-- A list equals the `range` of its `getD` reads. -/
theorem self_eq_range_map_getD :
    ∀ (l : List String) (n : Nat), l.length = n →
      l = (List.range n).map (fun i => l.getD i "") := by
  intro l
  induction l with
  | nil =>
    intro n h
    simp only [List.length_nil] at h
    subst h
    simp
  | cons a l ih =>
    intro n h
    cases n with
    | zero => simp at h
    | succ m =>
      rw [List.range_succ_eq_map, List.map_cons, List.map_map]
      simp only [List.getD_cons_zero]
      have hfun : ((fun i => (a :: l).getD i "") ∘ Nat.succ) = fun i => l.getD i "" :=
        funext fun i => List.getD_cons_succ
      rw [hfun]
      have hl : l.length = m := by simpa using h
      exact congrArg (a :: ·) (ih m hl)

/-- Decomposing a nonempty list as its head `getD` read followed by the
`getD` reads of indices `1 .. n`. -/
theorem eq_getD_cons_range (tokens : List String) (n : Nat) (h : tokens.length = n + 1) :
    tokens = tokens.getD 0 "" :: (List.range n).map (fun i => tokens.getD (i + 1) "") := by
  cases tokens with
  | nil => simp at h
  | cons a l =>
    simp only [List.getD_cons_zero, List.getD_cons_succ]
    have hl : l.length = n := by simpa using h
    exact congrArg (a :: ·) (self_eq_range_map_getD l n hl)

set_option maxRecDepth 4000 in
/-- C9: for a well-formed flushed path all of whose pools are cached, the
generated step rows carry exactly the indices `0 .. length-1` in order, and
concatenating `fromToken → toToken` along them reconstructs exactly the
original token sequence (the generator is a pure function of
`(tokens, pools, cache, pathId)`, so re-derivation is deterministic). -/
theorem step_rows_roundtrip (poolCache : String → Option PoolInfo) (pathId : Nat)
    (tokens pools : List String)
    (hlen : tokens.length = pools.length + 1)
    (hcache : ∀ pa ∈ pools, (poolCache pa).isSome)
    (hne : pools ≠ []) :
    ((flushStepsForPath poolCache pathId tokens pools).map (fun s => s.stepIndex) =
        List.range pools.length) ∧
      chainTokens (flushStepsForPath poolCache pathId tokens pools) = tokens := by
  set g : Nat → ArbitrageStep := fun i =>
    ⟨pathId, i, pools.getD i "", tokens.getD i "", tokens.getD (i + 1) "",
      isForwardSwap (tokens.getD i "") ((poolCache (pools.getD i "")).getD ⟨"", "", ""⟩)⟩
    with hg
  have hpoint : ∀ i, i < pools.length →
      stepRowAt poolCache pathId tokens pools i = some (g i) := by
    intro i hi
    have h1 : i < tokens.length := by omega
    have h2 : i + 1 < tokens.length := by omega
    have e1 : tokens[i]? = some (tokens.getD i "") := by
      rw [List.getD_eq_getElem?_getD, List.getElem?_eq_getElem h1]; rfl
    have e2 : tokens[i + 1]? = some (tokens.getD (i + 1) "") := by
      rw [List.getD_eq_getElem?_getD, List.getElem?_eq_getElem h2]; rfl
    have e3 : pools[i]? = some (pools.getD i "") := by
      rw [List.getD_eq_getElem?_getD, List.getElem?_eq_getElem hi]; rfl
    have hmem : pools.getD i "" ∈ pools := by
      rw [List.getD_eq_getElem?_getD, List.getElem?_eq_getElem hi]
      exact List.getElem_mem hi
    obtain ⟨pool, hpool⟩ := Option.isSome_iff_exists.mp (hcache _ hmem)
    simp only [stepRowAt, e1, e2, e3, hpool, hg, Option.getD_some]
  have hflush : flushStepsForPath poolCache pathId tokens pools =
      (List.range pools.length).map g := by
    rw [flushStepsForPath, hlen, Nat.add_sub_cancel]
    exact filterMap_range_eq_map pools.length _ g hpoint
  constructor
  · rw [hflush, List.map_map]
    have : ((fun s : ArbitrageStep => s.stepIndex) ∘ g) = fun i => i := by
      funext i; simp [hg]
    rw [this, List.map_id']
  · rw [hflush]
    obtain ⟨m, hm⟩ : ∃ m, pools.length = m + 1 := by
      cases pools with
      | nil => exact absurd rfl hne
      | cons p ps => exact ⟨ps.length, by simp⟩
    rw [hm, List.range_succ_eq_map, List.map_cons]
    simp only [chainTokens, List.map_cons, List.map_map]
    have hlen2 : tokens.length = (m + 1) + 1 := by omega
    conv_rhs => rw [eq_getD_cons_range tokens (m + 1) hlen2,
      List.range_succ_eq_map, List.map_cons, List.map_map]
    simp [hg, Function.comp]

/-- Witness for C9: a concrete two-step path through cached pools. -/
theorem step_rows_roundtrip_witness :
    ((["W", "A"] : List String).length = (["P"] : List String).length + 1 ∧
      (∀ pa ∈ (["P"] : List String), (poolCacheOf triPools pa).isSome) ∧
      (["P"] : List String) ≠ []) ∧
    ((flushStepsForPath (poolCacheOf triPools) 5 ["W", "A"] ["P"]).map
        (fun s => s.stepIndex) = List.range 1 ∧
      chainTokens (flushStepsForPath (poolCacheOf triPools) 5 ["W", "A"] ["P"]) =
        ["W", "A"]) :=
  ⟨⟨by decide, by decide, by decide⟩,
    step_rows_roundtrip (poolCacheOf triPools) 5 ["W", "A"] ["P"]
      (by decide) (by decide) (by decide)⟩

/-- C6: anchor resolution returns a case-insensitive address match first;
failing that, a token whose (truthy) symbol lower-cases to "weth"; failing
both, it resolves to nothing and the run fails with `NotFound` before any
enumeration or persistence (the store is returned untouched). -/
theorem anchor_resolution_order (tokens : List TokenInfo) :
    ((∃ t ∈ tokens, toLowerCase t.address = WETH_ADDRESS) →
      ∃ t, findWethToken tokens = some t ∧ t ∈ tokens ∧
        toLowerCase t.address = WETH_ADDRESS) ∧
    ((∀ t ∈ tokens, toLowerCase t.address ≠ WETH_ADDRESS) →
      (∃ t ∈ tokens, toLowerCase t.symbol = "weth") →
      ∃ t, findWethToken tokens = some t ∧ t ∈ tokens ∧
        toLowerCase t.symbol = "weth") ∧
    ((∀ t ∈ tokens, toLowerCase t.address ≠ WETH_ADDRESS) →
      (∀ t ∈ tokens, toLowerCase t.symbol ≠ "weth") →
      findWethToken tokens = none ∧
        ∀ pools db, runDiscovery pools tokens db = (.error .NotFound, db)) := by
  refine ⟨?_, ?_, ?_⟩
  · rintro ⟨t, ht, haddr⟩
    have hsome : (tokens.find? (fun t => toLowerCase t.address == WETH_ADDRESS)).isSome :=
      List.find?_isSome.mpr ⟨t, ht, by simp [haddr]⟩
    obtain ⟨u, hu⟩ := Option.isSome_iff_exists.mp hsome
    refine ⟨u, ?_, List.mem_of_find?_eq_some hu, ?_⟩
    · simp only [findWethToken, hu]
    · have := List.find?_some hu
      simpa using this
  · intro hno hex
    have hnone : tokens.find? (fun t => toLowerCase t.address == WETH_ADDRESS) = none :=
      List.find?_eq_none.mpr (fun t ht => by simpa using hno t ht)
    obtain ⟨t, ht, hsym⟩ := hex
    have hne : ¬(t.symbol == "") = true := by
      intro h
      rw [beq_iff_eq] at h
      rw [h] at hsym
      exact absurd hsym (by decide)
    have hsome : (tokens.find?
        (fun t => !(t.symbol == "") && toLowerCase t.symbol == "weth")).isSome :=
      List.find?_isSome.mpr ⟨t, ht, by simp [hsym, hne]⟩
    obtain ⟨u, hu⟩ := Option.isSome_iff_exists.mp hsome
    refine ⟨u, ?_, List.mem_of_find?_eq_some hu, ?_⟩
    · simp only [findWethToken, hnone, hu]
    · have := List.find?_some hu
      simp only [Bool.and_eq_true, beq_iff_eq] at this
      exact this.2
  · intro hno hnosym
    have hnone1 : tokens.find? (fun t => toLowerCase t.address == WETH_ADDRESS) = none :=
      List.find?_eq_none.mpr (fun t ht => by simpa using hno t ht)
    have hnone2 : tokens.find?
        (fun t => !(t.symbol == "") && toLowerCase t.symbol == "weth") = none :=
      List.find?_eq_none.mpr (fun t ht => by simp [hnosym t ht])
    have hfwt : findWethToken tokens = none := by
      simp only [findWethToken, hnone1, hnone2]
    refine ⟨hfwt, fun pools db => ?_⟩
    simp only [runDiscovery, hfwt]

/-- Witness for C6 (Scenario C): the anchor address is absent, yet a token
with the mixed-case symbol "WeTH" resolves via the symbol fallback. -/
theorem anchor_resolution_order_witness :
    ((∀ t ∈ fallbackTokens, toLowerCase t.address ≠ WETH_ADDRESS) ∧
      (∃ t ∈ fallbackTokens, toLowerCase t.symbol = "weth")) ∧
    ∃ t, findWethToken fallbackTokens = some t ∧ t ∈ fallbackTokens ∧
      toLowerCase t.symbol = "weth" :=
  ⟨⟨by decide, by decide⟩,
    (anchor_resolution_order fallbackTokens).2.1 (by decide) (by decide)⟩

/-- C7: when the anchor resolves but its adjacency entry is empty, the run
fails with `Disconnected` and the store is left exactly as it was — no path
or step row is written and no batch-processor work happens. -/
theorem disconnected_anchor_aborts (pools : List PoolInfo) (tokens : List TokenInfo)
    (db : DBState) (weth : TokenInfo)
    (hresolve : findWethToken tokens = some weth)
    (hedges : adjEdges pools weth.address = []) :
    runDiscovery pools tokens db = (.error .Disconnected, db) := by
  simp only [runDiscovery, hresolve, hedges, List.length_nil, if_pos]

/-- Witness for C7: the anchor token exists at its configured address but no
pool in the Scenario A triangle touches it. -/
theorem disconnected_anchor_aborts_witness :
    (findWethToken wethOnlyTokens = some ⟨WETH_ADDRESS, "WETH"⟩ ∧
      adjEdges triPools WETH_ADDRESS = []) ∧
    runDiscovery triPools wethOnlyTokens dbEmpty = (.error .Disconnected, dbEmpty) :=
  ⟨⟨by decide, by decide⟩,
    disconnected_anchor_aborts triPools wethOnlyTokens dbEmpty ⟨WETH_ADDRESS, "WETH"⟩
      (by decide) (by decide)⟩

/-- C1 fails on the refactored writer: `generateStepsForPath` persists
`is_forward = true` even for a step entering pool `P = (token0 "A",
token1 "B")` from its token1 side, while the repository's own direction
utility (`isForwardSwap`, used by the legacy flush loop) yields `false`
there, as the claim requires. -/
theorem step_direction_flag_bug :
    generateStepsForPath ⟨["B", "A"], ["P"], 1, "B-A"⟩ 7 =
        [⟨7, 0, "P", "B", "A", true⟩] ∧
      ("B" : String) ≠ (PoolInfo.mk "P" "A" "B").token0 ∧
      isForwardSwap "B" ⟨"P", "A", "B"⟩ = false ∧
      flushStepsForPath (poolCacheOf [⟨"P", "A", "B"⟩]) 7 ["B", "A"] ["P"] =
        [⟨7, 0, "P", "B", "A", false⟩] := by decide

/-- A step row depends on the assigned path id only through its `pathId`
field. -/
theorem stepRowAt_pathId (poolCache : String → Option PoolInfo) (pathId : Nat)
    (tokens pools : List String) (i : Nat) :
    stepRowAt poolCache pathId tokens pools i =
      (stepRowAt poolCache 0 tokens pools i).map
        (fun s => ⟨pathId, s.stepIndex, s.poolAddress, s.fromToken, s.toToken, s.isForward⟩) := by
  simp only [stepRowAt]
  cases tokens[i]? with
  | none => rfl
  | some f =>
    cases tokens[i + 1]? with
    | none => rfl
    | some t =>
      cases pools[i]? with
      | none => rfl
      | some pa =>
        dsimp only
        cases poolCache pa with
        | none => rfl
        | some pool => rfl

/-- A path's step list for any assigned id is the id-0 step list with the
`pathId` field reassigned; in particular its length is id-independent. -/
theorem flushStepsForPath_pathId (poolCache : String → Option PoolInfo) (pathId : Nat)
    (tokens pools : List String) :
    flushStepsForPath poolCache pathId tokens pools =
      (flushStepsForPath poolCache 0 tokens pools).map
        (fun s => ⟨pathId, s.stepIndex, s.poolAddress, s.fromToken, s.toToken, s.isForward⟩) := by
  rw [flushStepsForPath, flushStepsForPath, List.map_filterMap]
  exact List.filterMap_congr (fun i _ => stepRowAt_pathId poolCache pathId tokens pools i)

/-- The path-insert loop aborts whenever the failure oracle names one of its
operations. -/
theorem insertPaths_fails (poolCache : String → Option PoolInfo) (k : Nat) :
    ∀ (batch : List ArbitragePath) (opIdx : Nat) (db : DBState),
      opIdx ≤ k → k < opIdx + batch.length →
      insertPaths (some k) poolCache opIdx db batch = .error .StorageFailure := by
  intro batch
  induction batch with
  | nil =>
    intro opIdx db h1 h2
    simp only [List.length_nil, Nat.add_zero] at h2
    omega
  | cons p rest ih =>
    intro opIdx db h1 h2
    by_cases hk : k = opIdx
    · subst hk
      simp [insertPaths]
    · rw [insertPaths, if_neg (by simp [hk]),
        ih (opIdx + 1) (insertPathRow db p).1 (by omega)
          (by simp only [List.length_cons] at h2; omega)]

/-- When the failure oracle names none of its operations, the path-insert
loop succeeds, consuming exactly one op per path and collecting one step
list per path. -/
theorem insertPaths_ok (failAt : Option Nat) (poolCache : String → Option PoolInfo) :
    ∀ (batch : List ArbitragePath) (opIdx : Nat) (db : DBState),
      (∀ j, opIdx ≤ j → j < opIdx + batch.length → failAt ≠ some j) →
      ∃ db2 steps,
        insertPaths failAt poolCache opIdx db batch = .ok (db2, steps, opIdx + batch.length) ∧
          steps.length = txnStepCount poolCache batch := by
  intro batch
  induction batch with
  | nil =>
    intro opIdx db _
    exact ⟨db, [], by simp [insertPaths, txnStepCount]⟩
  | cons p rest ih =>
    intro opIdx db hfree
    have hne : failAt ≠ some opIdx :=
      hfree opIdx (Nat.le_refl _) (by simp only [List.length_cons]; omega)
    obtain ⟨db2, steps2, heq, hlen⟩ := ih (opIdx + 1) (insertPathRow db p).1
      (fun j hj1 hj2 => hfree j (by omega) (by simp only [List.length_cons]; omega))
    refine ⟨db2, flushStepsForPath poolCache (insertPathRow db p).2 p.tokens p.pools ++ steps2,
      ?_, ?_⟩
    · rw [insertPaths, if_neg hne, heq]
      dsimp only
      have harith : opIdx + 1 + rest.length = opIdx + (p :: rest).length := by
        simp only [List.length_cons]
        omega
      rw [harith]
    · rw [List.length_append, hlen,
        flushStepsForPath_pathId poolCache (insertPathRow db p).2 p.tokens p.pools,
        List.length_map]
      simp only [txnStepCount, List.map_cons, List.sum_cons]

/-- The step-insert loop aborts whenever the failure oracle names one of its
operations. -/
theorem insertSteps_fails (k : Nat) :
    ∀ (steps : List ArbitrageStep) (opIdx : Nat) (db : DBState),
      opIdx ≤ k → k < opIdx + steps.length →
      insertSteps (some k) opIdx db steps = .error .StorageFailure := by
  intro steps
  induction steps with
  | nil =>
    intro opIdx db h1 h2
    simp only [List.length_nil, Nat.add_zero] at h2
    omega
  | cons s rest ih =>
    intro opIdx db h1 h2
    by_cases hk : k = opIdx
    · subst hk
      simp [insertSteps]
    · rw [insertSteps, if_neg (by simp [hk])]
      exact ih (opIdx + 1) _ (by omega) (by simp only [List.length_cons] at h2; omega)

/-- When the failure oracle names none of its operations, the step-insert
loop succeeds, consuming exactly one op per step row. -/
theorem insertSteps_ok (failAt : Option Nat) :
    ∀ (steps : List ArbitrageStep) (opIdx : Nat) (db : DBState),
      (∀ j, opIdx ≤ j → j < opIdx + steps.length → failAt ≠ some j) →
      ∃ db2, insertSteps failAt opIdx db steps = .ok (db2, opIdx + steps.length) := by
  intro steps
  induction steps with
  | nil =>
    intro opIdx db _
    exact ⟨db, by simp [insertSteps]⟩
  | cons s rest ih =>
    intro opIdx db hfree
    have hne : failAt ≠ some opIdx :=
      hfree opIdx (Nat.le_refl _) (by simp only [List.length_cons]; omega)
    obtain ⟨db2, heq⟩ := ih (opIdx + 1) ⟨db.nextPathId, db.pathRows, db.stepRows ++ [s]⟩
      (fun j hj1 hj2 => hfree j (by omega) (by simp only [List.length_cons]; omega))
    refine ⟨db2, ?_⟩
    rw [insertSteps, if_neg hne, heq]
    simp only [List.length_cons]
    congr 2
    omega

/-- A transaction in which some operation (path insert, step insert, or
commit) fails ends in `StorageFailure`. -/
theorem runTxn_fails (poolCache : String → Option PoolInfo) (db : DBState)
    (batch : List ArbitragePath) (k : Nat) (hk : k < txnOpCount poolCache batch) :
    runTxn (some k) poolCache db batch = .error .StorageFailure := by
  rw [runTxn]
  rcases Nat.lt_or_ge k batch.length with h | h
  · rw [insertPaths_fails poolCache k batch 0 db (Nat.zero_le _) (by omega)]
  · obtain ⟨db2, steps, heq, hlen⟩ := insertPaths_ok (some k) poolCache batch 0 db
      (fun j _ hj2 hcontra => by
        rw [Option.some_inj] at hcontra
        omega)
    rw [heq]
    dsimp only
    rw [txnOpCount] at hk
    rcases Nat.lt_or_ge k (batch.length + steps.length) with h2 | h2
    · rw [insertSteps_fails k steps (0 + batch.length) db2 (by omega) (by omega)]
    · obtain ⟨db3, heq2⟩ := insertSteps_ok (some k) steps (0 + batch.length) db2
        (fun j hj1 hj2 hcontra => by
          rw [Option.some_inj] at hcontra
          omega)
      have hk2 : k = 0 + batch.length + steps.length := by omega
      rw [heq2]
      dsimp only
      rw [if_pos (by rw [hk2])]

/-- A transaction with no failing operation commits. -/
theorem runTxn_none_ok (poolCache : String → Option PoolInfo) (db : DBState)
    (batch : List ArbitragePath) :
    ∃ db2, runTxn none poolCache db batch = .ok db2 := by
  rw [runTxn]
  obtain ⟨db2, steps, heq, -⟩ := insertPaths_ok none poolCache batch 0 db
    (fun j _ _ hcontra => Option.noConfusion hcontra)
  rw [heq]
  dsimp only
  obtain ⟨db3, heq2⟩ := insertSteps_ok none steps (0 + batch.length) db2
    (fun j _ _ hcontra => Option.noConfusion hcontra)
  rw [heq2]
  dsimp only
  exact ⟨db3, by simp⟩

/-- Every flush ends in one of four observable outcomes: skipped while
another flush is in flight, returned on an empty unforced buffer, returned
on an empty forced buffer, committed, or rolled back with the error
rethrown. -/
theorem flushBatches_cases (failAt : Option Nat) (poolCache : String → Option PoolInfo)
    (st : BPState) (forceFlush : Bool) :
    flushBatches failAt poolCache st forceFlush = (st, .ok ()) ∨
      flushBatches failAt poolCache st forceFlush =
        ({ st with isFlushingBatch := false }, .ok ()) ∨
      (∃ db2, flushBatches failAt poolCache st forceFlush = (⟨[], false, db2⟩, .ok ())) ∨
      (∃ e, flushBatches failAt poolCache st forceFlush =
        ({ st with isFlushingBatch := false }, .error e)) := by
  rw [flushBatches]
  split_ifs with h1 h2 h3
  · exact Or.inl rfl
  · exact Or.inl rfl
  · exact Or.inr (Or.inl rfl)
  · cases hr : runTxn failAt poolCache st.db st.pathBatch with
    | ok db2 => exact Or.inr (Or.inr (Or.inl ⟨db2, rfl⟩))
    | error e => exact Or.inr (Or.inr (Or.inr ⟨e, rfl⟩))

/-- A flush that is not skipped over an in-flight flush and has a nonempty
buffer reaches the transaction; its outcome is the transaction's. -/
theorem flushBatches_runs (failAt : Option Nat) (poolCache : String → Option PoolInfo)
    (st : BPState) (forceFlush : Bool)
    (hguard : st.isFlushingBatch = false) (hne : st.pathBatch ≠ []) :
    flushBatches failAt poolCache st forceFlush =
      match runTxn failAt poolCache st.db st.pathBatch with
      | .ok db2 => (⟨[], false, db2⟩, .ok ())
      | .error e => ({ st with isFlushingBatch := false }, .error e) := by
  have hempty : st.pathBatch.isEmpty = false := by
    rw [Bool.eq_false_iff]
    intro h
    exact hne (List.isEmpty_iff.mp h)
  have hlen : ¬st.pathBatch.length = 0 := fun h => hne (List.length_eq_zero.mp h)
  rw [flushBatches, if_neg (by simp [hguard]), if_neg (by simp [hempty]), if_neg hlen]

/-- C2: in a flush whose transaction hits any failing store operation, the
error propagates to the caller, the store is exactly as before the flush
(rolled back: no path or step row of the batch is visible), and the buffer
is not cleared; with no failing operation the flush succeeds and only then
is the buffer cleared. -/
theorem flush_transaction_atomicity (poolCache : String → Option PoolInfo)
    (st : BPState) (forceFlush : Bool)
    (hguard : st.isFlushingBatch = false) (hne : st.pathBatch ≠ []) :
    (∀ k, k < txnOpCount poolCache st.pathBatch →
      (flushBatches (some k) poolCache st forceFlush).2 = .error .StorageFailure ∧
        (flushBatches (some k) poolCache st forceFlush).1.db = st.db ∧
        (flushBatches (some k) poolCache st forceFlush).1.pathBatch = st.pathBatch) ∧
      ((flushBatches none poolCache st forceFlush).2 = .ok () ∧
        (flushBatches none poolCache st forceFlush).1.pathBatch = []) := by
  constructor
  · intro k hk
    rw [flushBatches_runs (some k) poolCache st forceFlush hguard hne,
      runTxn_fails poolCache st.db st.pathBatch k hk]
    exact ⟨rfl, rfl, rfl⟩
  · obtain ⟨db2, hdb2⟩ := runTxn_none_ok poolCache st.db st.pathBatch
    rw [flushBatches_runs none poolCache st forceFlush hguard hne, hdb2]
    exact ⟨rfl, rfl⟩

/-- Witness for C2: one buffered path, with the very first store operation
(the path insert) failing. -/
theorem flush_transaction_atomicity_witness :
    (oneBufferedState.isFlushingBatch = false ∧ oneBufferedState.pathBatch ≠ [] ∧
      0 < txnOpCount (poolCacheOf triPools) oneBufferedState.pathBatch) ∧
    ((flushBatches (some 0) (poolCacheOf triPools) oneBufferedState false).2 =
        .error .StorageFailure ∧
      (flushBatches (some 0) (poolCacheOf triPools) oneBufferedState false).1.db =
        oneBufferedState.db ∧
      (flushBatches (some 0) (poolCacheOf triPools) oneBufferedState false).1.pathBatch =
        oneBufferedState.pathBatch) :=
  ⟨⟨rfl, by decide, by decide⟩,
    (flush_transaction_atomicity (poolCacheOf triPools) oneBufferedState false rfl
      (by decide)).1 0 (by decide)⟩

/-- C10: a flush that is not skipped always releases the in-flight guard,
and when it throws, the buffer is bit-for-bit the buffer it started with —
no buffered path is dropped or reordered by a failed flush. -/
theorem flush_error_buffer_intact (failAt : Option Nat)
    (poolCache : String → Option PoolInfo) (st : BPState) (forceFlush : Bool) (e : RunError)
    (hguard : st.isFlushingBatch = false) :
    ((flushBatches failAt poolCache st forceFlush).2 = .error e →
      (flushBatches failAt poolCache st forceFlush).1.pathBatch = st.pathBatch) ∧
      (flushBatches failAt poolCache st forceFlush).1.isFlushingBatch = false := by
  rcases flushBatches_cases failAt poolCache st forceFlush with h | h | ⟨db2, h⟩ | ⟨e2, h⟩
  · rw [h]
    exact ⟨fun hc => by simp at hc, hguard⟩
  · rw [h]
    exact ⟨fun hc => by simp at hc, rfl⟩
  · rw [h]
    exact ⟨fun hc => by simp at hc, rfl⟩
  · rw [h]
    exact ⟨fun _ => rfl, rfl⟩

/-- Witness for C10: the failed flush of the one-path buffer leaves the
buffer intact and the guard released. -/
theorem flush_error_buffer_intact_witness :
    oneBufferedState.isFlushingBatch = false ∧
      (((flushBatches (some 0) (poolCacheOf triPools) oneBufferedState false).2 =
          .error .StorageFailure →
        (flushBatches (some 0) (poolCacheOf triPools) oneBufferedState false).1.pathBatch =
          oneBufferedState.pathBatch) ∧
        (flushBatches (some 0) (poolCacheOf triPools) oneBufferedState false).1.isFlushingBatch =
          false) :=
  ⟨rfl, flush_error_buffer_intact (some 0) (poolCacheOf triPools) oneBufferedState false
    .StorageFailure rfl⟩

end DexArb




